import Mathlib

/-!
Verification of the fixed-point reciprocal square root program
(`fast_rsqrt.c`): a Q16 reciprocal-sqrt built from a leading-zero count,
a 32-entry seed table, linear interpolation and two Newton-Raphson steps,
plus a 3D distance function built on top of it.

All machine arithmetic is embedded over `Nat` (unsigned) and `Int`
(signed inputs of `dist3`), with explicit `% 2 ^ 32` / `% 2 ^ 64`
wherever the C code can wrap.
-/

set_option maxRecDepth 100000

namespace FastRsqrt

/-- One conditional normalisation step of the leading-zero count: C's
`if ((x >> (32-s)) == 0) { n += s; x <<= s; }` acting on the pair `(n, x)`,
instantiated below with `s = 16, 8, 4, 2`. The shift wraps mod `2^32` as in C. -/
def clzStep (s : Nat) (p : Nat × Nat) : Nat × Nat :=
  if p.2 >>> (32 - s) = 0 then (p.1 + s, (p.2 <<< s) % 2 ^ 32) else p

/-- `clz32`: count of leading zeros of a 32-bit value; returns 32 for 0.
Binary search over 16/8/4/2/1-bit halves, as in the C source. -/
def clz32 (x : Nat) : Nat :=
  if x = 0 then 32
  else
    let p := clzStep 2 (clzStep 4 (clzStep 8 (clzStep 16 (0, x))))
    if p.2 >>> 31 = 0 then p.1 + 1 else p.1

/-- The 32-entry lookup table of Q16 estimates of `1/sqrt(2^e)`. -/
def rsqrt_table : List Nat :=
  [65536, 46341, 32768, 23170, 16384, 11585, 8192, 5793,
   4096, 2896, 2048, 1448, 1024, 724, 512, 362,
   256, 181, 128, 90, 64, 45, 32, 23,
   16, 11, 8, 6, 4, 3, 2, 1]

/-- One Newton-Raphson iteration `y := y * (3 - x*y^2) / 2` in Q16
fixed-point, with the C code's `uint64_t` intermediates: `x * y2` and
`y * term` wrap mod `2^64`, the subtraction is wrapping `uint64_t`
subtraction, and the final `>>> 33` result is truncated to 32 bits. -/
def q16_newton_step (y x : Nat) : Nat :=
  let y2 := (y * y) % 2 ^ 64
  let term := (3 * 2 ^ 32 + 2 ^ 64 - (x * y2) % 2 ^ 64) % 2 ^ 64
  let prod := (y * term) % 2 ^ 64
  (prod >>> 33) % 2 ^ 32

/-- The exponent bucket `exp = 31 - clz32(x)` of `fast_rsqrt`. -/
def rsqrt_exp (x : Nat) : Nat := 31 - clz32 x

/-- `one_exp = (exp < 31) ? (1u << exp) : 0u` from `fast_rsqrt`. -/
def rsqrt_one_exp (e : Nat) : Nat := if e < 31 then (1 <<< e) % 2 ^ 32 else 0

/-- The Q16 interpolation offset `frac` of `fast_rsqrt`:
`diff = (uint64_t)x - one_exp` (wrapping 64-bit subtraction),
`frac64 = diff << 16` (mod `2^64`), `frac = (uint32_t)(frac64 >> exp)`. -/
def rsqrt_frac (x : Nat) : Nat :=
  let e := rsqrt_exp x
  let diff := (x + 2 ^ 64 - rsqrt_one_exp e) % 2 ^ 64
  let frac64 := (diff <<< 16) % 2 ^ 64
  (frac64 >>> e) % 2 ^ 32

/-- The interpolated initial estimate of `fast_rsqrt` (steps 1-3 of the C
function): table lookup of `y_base`/`y_next` and the linear blend
`y = y_base - (uint32_t)((delta * frac) >> 16)` with wrapping `uint32_t`
subtractions. -/
def rsqrt_interp (x : Nat) : Nat :=
  let e := rsqrt_exp x
  let y_base := rsqrt_table.getD e 0
  let y_next := if e < 31 then rsqrt_table.getD (e + 1) 0 else 1
  let delta := (y_base + 2 ^ 32 - y_next) % 2 ^ 32
  let interp := (delta * rsqrt_frac x) % 2 ^ 64
  (y_base + 2 ^ 32 - (interp >>> 16) % 2 ^ 32) % 2 ^ 32

/-- `fast_rsqrt`: saturate to `0xFFFFFFFF` on zero input, otherwise
interpolate an initial estimate and refine it with two Newton steps. -/
def fast_rsqrt (x : Nat) : Nat :=
  if x = 0 then 4294967295
  else q16_newton_step (q16_newton_step (rsqrt_interp x) x) x

/-- C's conversion of a signed 32-bit value to `uint64_t`
(two's-complement value mod `2^64`). -/
def u64_of_i32 (x : Int) : Nat := (x % 2 ^ 64).toNat

/-- `dist3`: sum of squares in `uint64_t` (each product `(uint64_t)x * x`
wraps mod `2^64`, as does the sum), saturated to `0xFFFFFFFF`, then
`(uint32_t)((inv_sqrt * sum) >> 16)`. -/
def dist3 (x y z : Int) : Nat :=
  let sum0 := ((u64_of_i32 x * u64_of_i32 x) % 2 ^ 64
              + (u64_of_i32 y * u64_of_i32 y) % 2 ^ 64
              + (u64_of_i32 z * u64_of_i32 z) % 2 ^ 64) % 2 ^ 64
  let sum_sq := if 4294967295 < sum0 then 4294967295 else sum0
  let inv_sqrt := fast_rsqrt (sum_sq % 2 ^ 32)
  let dist := (inv_sqrt * (sum_sq % 2 ^ 32)) % 2 ^ 64
  (dist >>> 16) % 2 ^ 32

/-! ### Correctness of the leading-zero count -/

lemma shiftRight_eq_zero_iff (x k : Nat) : x >>> k = 0 ↔ x < 2 ^ k := by
  rw [Nat.shiftRight_eq_div_pow, Nat.div_eq_zero_iff (Nat.pos_pow_of_pos k (by norm_num))]

lemma pow_sub_mul_pow (a b : Nat) (h : b ≤ a) : 2 ^ (a - b) * 2 ^ b = 2 ^ a := by
  rw [← pow_add]
  congr 1
  omega

/-- Invariant carried through the four shift steps of the leading-zero
count: the running value is the original input shifted left by the running
count, it stays below 2^32, and after a step with shift amount s it is
at least 2^(32-s) while the count stays at most 32-s. -/
lemma clzStep_spec (s x : Nat) (p : Nat × Nat) (hs0 : 0 < s) (hs : 2 * s ≤ 32)
    (hinv : p.2 = x * 2 ^ p.1) (hlo : 2 ^ (32 - 2 * s) ≤ p.2) (hhi : p.2 < 2 ^ 32)
    (hn : p.1 ≤ 32 - 2 * s) :
    (clzStep s p).2 = x * 2 ^ (clzStep s p).1 ∧
    2 ^ (32 - s) ≤ (clzStep s p).2 ∧ (clzStep s p).2 < 2 ^ 32 ∧ (clzStep s p).1 ≤ 32 - s := by
  unfold clzStep
  by_cases h : p.2 >>> (32 - s) = 0
  · rw [if_pos h]
    rw [shiftRight_eq_zero_iff] at h
    have hmul : p.2 * 2 ^ s < 2 ^ 32 := by
      calc p.2 * 2 ^ s < 2 ^ (32 - s) * 2 ^ s :=
            Nat.mul_lt_mul_of_lt_of_le h (Nat.le_refl _) (Nat.pos_pow_of_pos s (by norm_num))
        _ = 2 ^ 32 := pow_sub_mul_pow 32 s (by omega)
    have hshift : (p.2 <<< s) % 2 ^ 32 = p.2 * 2 ^ s := by
      rw [Nat.shiftLeft_eq, Nat.mod_eq_of_lt hmul]
    refine ⟨?_, ?_, ?_, ?_⟩
    · show (p.2 <<< s) % 2 ^ 32 = x * 2 ^ (p.1 + s)
      rw [hshift, hinv, pow_add, Nat.mul_assoc]
    · show 2 ^ (32 - s) ≤ (p.2 <<< s) % 2 ^ 32
      rw [hshift]
      calc 2 ^ (32 - s) = 2 ^ (32 - 2 * s) * 2 ^ s := by
            rw [← pow_add]
            congr 1
            omega
        _ ≤ p.2 * 2 ^ s := Nat.mul_le_mul_right _ hlo
    · show (p.2 <<< s) % 2 ^ 32 < 2 ^ 32
      rw [hshift]
      exact hmul
    · show p.1 + s ≤ 32 - s
      omega
  · rw [if_neg h]
    rw [shiftRight_eq_zero_iff, not_lt] at h
    exact ⟨hinv, h, hhi, by omega⟩

/-- Correctness of clz32 on nonzero 32-bit inputs: the derived exponent
bucket 31 - clz32 x brackets x between consecutive powers of two. -/
lemma clz32_spec (x : Nat) (hx : 0 < x) (hx32 : x < 2 ^ 32) :
    clz32 x ≤ 31 ∧ 2 ^ (31 - clz32 x) ≤ x ∧ x < 2 ^ (31 - clz32 x + 1) := by
  have hx0 : ¬ x = 0 := by omega
  have h16 := clzStep_spec 16 x (0, x) (by norm_num) (by norm_num)
    (by simp) (by simpa using hx) (by simpa using hx32) (by norm_num)
  have h8 := clzStep_spec 8 x (clzStep 16 (0, x)) (by norm_num) (by norm_num)
    h16.1 (h16.2.1) h16.2.2.1 (by omega)
  have h4 := clzStep_spec 4 x (clzStep 8 (clzStep 16 (0, x))) (by norm_num) (by norm_num)
    h8.1 (h8.2.1) h8.2.2.1 (by omega)
  have h2 := clzStep_spec 2 x (clzStep 4 (clzStep 8 (clzStep 16 (0, x)))) (by norm_num)
    (by norm_num) h4.1 (h4.2.1) h4.2.2.1 (by omega)
  set q := clzStep 2 (clzStep 4 (clzStep 8 (clzStep 16 (0, x)))) with hq
  obtain ⟨hinv, hlo, hhi, hn⟩ := h2
  unfold clz32
  rw [if_neg hx0, ← hq]
  have hpos : 0 < 2 ^ q.1 := Nat.pos_pow_of_pos q.1 (by norm_num)
  by_cases hb : q.2 >>> 31 = 0
  · rw [if_pos hb]
    rw [shiftRight_eq_zero_iff] at hb
    rw [hinv] at hlo hb
    refine ⟨by omega, ?_, ?_⟩
    · have : 2 ^ (31 - (q.1 + 1)) * 2 ^ q.1 ≤ x * 2 ^ q.1 := by
        calc 2 ^ (31 - (q.1 + 1)) * 2 ^ q.1 = 2 ^ 30 := by
              rw [← pow_add]
              congr 1
              omega
          _ ≤ x * 2 ^ q.1 := hlo
      exact Nat.le_of_mul_le_mul_right this hpos
    · have : x * 2 ^ q.1 < 2 ^ (31 - (q.1 + 1) + 1) * 2 ^ q.1 := by
        calc x * 2 ^ q.1 < 2 ^ 31 := hb
          _ = 2 ^ (31 - (q.1 + 1) + 1) * 2 ^ q.1 := by
              rw [← pow_add]
              congr 1
              omega
      exact Nat.lt_of_mul_lt_mul_right this
  · rw [if_neg hb]
    rw [shiftRight_eq_zero_iff, not_lt] at hb
    rw [hinv] at hb hhi
    refine ⟨by omega, ?_, ?_⟩
    · have : 2 ^ (31 - q.1) * 2 ^ q.1 ≤ x * 2 ^ q.1 := by
        calc 2 ^ (31 - q.1) * 2 ^ q.1 = 2 ^ 31 := by
              rw [← pow_add]
              congr 1
              omega
          _ ≤ x * 2 ^ q.1 := hb
      exact Nat.le_of_mul_le_mul_right this hpos
    · have : x * 2 ^ q.1 < 2 ^ (31 - q.1 + 1) * 2 ^ q.1 := by
        calc x * 2 ^ q.1 < 2 ^ 32 := hhi
          _ = 2 ^ (31 - q.1 + 1) * 2 ^ q.1 := by
              rw [← pow_add]
              congr 1
              omega
      exact Nat.lt_of_mul_lt_mul_right this

/-- The exponent bucket of a nonzero 32-bit input brackets it between
consecutive powers of two and is at most 31. -/
lemma rsqrt_exp_spec (x : Nat) (hx : 0 < x) (hx32 : x < 2 ^ 32) :
    rsqrt_exp x ≤ 31 ∧ 2 ^ rsqrt_exp x ≤ x ∧ x < 2 ^ (rsqrt_exp x + 1) := by
  have h := clz32_spec x hx hx32
  exact ⟨by unfold rsqrt_exp; omega, h.2.1, h.2.2⟩

/-! ### The top exponent bucket -/

lemma rsqrt_exp_eq_31 (x : Nat) (h1 : 2 ^ 31 ≤ x) (h2 : x < 2 ^ 32) : rsqrt_exp x = 31 := by
  have hx : 0 < x := lt_of_lt_of_le (by norm_num) h1
  have h := rsqrt_exp_spec x hx h2
  have h31 : (31 : Nat) < rsqrt_exp x + 1 :=
    (Nat.pow_lt_pow_iff_right (by norm_num)).mp (lt_of_le_of_lt h1 h.2.2)
  omega

lemma rsqrt_interp_top (x : Nat) (h1 : 2 ^ 31 ≤ x) (h2 : x < 2 ^ 32) : rsqrt_interp x = 1 := by
  have he := rsqrt_exp_eq_31 x h1 h2
  have hg : rsqrt_table.getD 31 0 = 1 := by rfl
  simp only [rsqrt_interp, he, hg]
  norm_num

/-- One Newton step started from the Q16 value 1 on a top-bucket input
returns 1 again: the 64-bit term 3*2^32 - x lies in (2^33, 2^33 + 2^31],
so the shift by 33 yields exactly 1. -/
lemma newton_one (x : Nat) (h1 : 2 ^ 31 ≤ x) (h2 : x < 2 ^ 32) : q16_newton_step 1 x = 1 := by
  simp only [q16_newton_step, Nat.shiftRight_eq_div_pow, one_mul, mul_one]
  norm_num at h1 h2 ⊢
  omega

lemma fast_rsqrt_top (x : Nat) (h1 : 2 ^ 31 ≤ x) (h2 : x < 2 ^ 32) : fast_rsqrt x = 1 := by
  have hx0 : ¬ x = 0 := by
    have : (0 : Nat) < 2 ^ 31 := by norm_num
    omega
  unfold fast_rsqrt
  rw [if_neg hx0, rsqrt_interp_top x h1 h2, newton_one x h1 h2, newton_one x h1 h2]

/-! ### The interpolation offset -/

lemma rsqrt_frac_lt (x : Nat) (hx : 0 < x) (h32 : x < 2 ^ 32) (he : rsqrt_exp x < 31) :
    rsqrt_frac x < 65536 := by
  obtain ⟨hle31, hlo, hhi⟩ := rsqrt_exp_spec x hx h32
  have hone : rsqrt_one_exp (rsqrt_exp x) = 2 ^ rsqrt_exp x := by
    simp only [rsqrt_one_exp, if_pos he, Nat.shiftLeft_eq, one_mul]
    exact Nat.mod_eq_of_lt ((Nat.pow_lt_pow_iff_right (by norm_num)).mpr (by omega))
  have hd : (x + 2 ^ 64 - rsqrt_one_exp (rsqrt_exp x)) % 2 ^ 64 = x - 2 ^ rsqrt_exp x := by
    rw [hone]
    omega
  have hxlt : x - 2 ^ rsqrt_exp x < 2 ^ rsqrt_exp x := by
    have h1 := hhi
    rw [pow_succ] at h1
    omega
  have hb : 2 ^ rsqrt_exp x ≤ 2 ^ 31 := Nat.pow_le_pow_right (by norm_num) (by omega)
  have hsmall : (x - 2 ^ rsqrt_exp x) * 2 ^ 16 < 2 ^ 64 := by omega
  simp only [rsqrt_frac, hd, Nat.shiftLeft_eq, Nat.shiftRight_eq_div_pow]
  rw [Nat.mod_eq_of_lt hsmall]
  have hdiv : (x - 2 ^ rsqrt_exp x) * 2 ^ 16 / 2 ^ rsqrt_exp x < 65536 := by
    rw [Nat.div_lt_iff_lt_mul (Nat.pos_pow_of_pos _ (by norm_num))]
    calc (x - 2 ^ rsqrt_exp x) * 2 ^ 16
        < 2 ^ rsqrt_exp x * 2 ^ 16 := by
          exact mul_lt_mul_of_pos_right hxlt (by norm_num)
      _ = 65536 * 2 ^ rsqrt_exp x := by ring
  rw [Nat.mod_eq_of_lt (lt_trans hdiv (by norm_num))]
  exact hdiv

lemma rsqrt_frac_top (x : Nat) (h1 : 2 ^ 31 ≤ x) (h2 : x < 2 ^ 32) :
    65536 ≤ rsqrt_frac x ∧ rsqrt_frac x < 131072 := by
  have he := rsqrt_exp_eq_31 x h1 h2
  simp only [rsqrt_frac, he, rsqrt_one_exp, Nat.shiftLeft_eq, Nat.shiftRight_eq_div_pow]
  norm_num at h1 h2 ⊢
  omega

/-! ### The distance function -/

/-- The C conversion of a signed 32-bit component to an unsigned 64-bit
value squares to the exact mathematical square (mod 2^64 the sign
cancels, and the square itself is below 2^62). -/
lemma u64_sq (x : Int) (h1 : -(2 ^ 31) ≤ x) (h2 : x < 2 ^ 31) :
    (u64_of_i32 x * u64_of_i32 x) % 2 ^ 64 = (x * x).toNat := by
  have hxx0 : (0 : Int) ≤ x * x := mul_self_nonneg x
  have hxxlt : x * x < 2 ^ 64 := by nlinarith
  have hm : (0 : Int) ≤ x % 2 ^ 64 := Int.emod_nonneg _ (by norm_num)
  have key : (((u64_of_i32 x * u64_of_i32 x) % 2 ^ 64 : Nat) : Int) = ((x * x).toNat : Int) := by
    push_cast
    rw [u64_of_i32, Int.toNat_of_nonneg hm, Int.toNat_of_nonneg hxx0]
    have hnum : ((18446744073709551616 : Int)) = 2 ^ 64 := by norm_num
    rw [hnum, ← Int.mul_emod x x (2 ^ 64)]
    exact Int.emod_eq_of_lt hxx0 hxxlt
  exact_mod_cast key

/-! ### Claim theorems -/

/-- Claim C1: for input 0, fast_rsqrt returns the maximum representable
unsigned 32-bit value 0xFFFFFFFF (saturation), not an error. -/
theorem C1_zero_saturates : fast_rsqrt 0 = 4294967295 := by decide

/-- Claim C2: for every nonzero 32-bit input x, the exponent bucket
e = 31 - clz32 x satisfies 2^e <= x < 2^(e+1), and e is the zero-based
bit position of the most significant set bit of x (its base-2 log). -/
theorem C2_exp_bucket (x : Nat) (hx : 0 < x) (h32 : x < 2 ^ 32) :
    2 ^ rsqrt_exp x ≤ x ∧ x < 2 ^ (rsqrt_exp x + 1) ∧ rsqrt_exp x = Nat.log2 x := by
  obtain ⟨h31, hlo, hhi⟩ := rsqrt_exp_spec x hx h32
  refine ⟨hlo, hhi, ?_⟩
  have hne : x ≠ 0 := by omega
  have h1 : rsqrt_exp x ≤ Nat.log2 x := (Nat.le_log2 hne).mpr hlo
  have h2 : Nat.log2 x < rsqrt_exp x + 1 := (Nat.log2_lt hne).mpr hhi
  omega

theorem C2_exp_bucket_witness :
    0 < 123456 ∧ 123456 < 2 ^ 32 ∧
    (2 ^ rsqrt_exp 123456 ≤ 123456 ∧ 123456 < 2 ^ (rsqrt_exp 123456 + 1) ∧
     rsqrt_exp 123456 = Nat.log2 123456) :=
  ⟨by norm_num, by norm_num, C2_exp_bucket 123456 (by norm_num) (by norm_num)⟩

/-- Claim C3, counterexample: at x = 1133 the squared result times the
input already misses 2^32 by at least 2^32/1000, so the 0.1% round-trip
tolerance does not hold for every x > 0. -/
theorem C3_tolerance_cex :
    ¬ (((fast_rsqrt 1133 : Int) ^ 2 * 1133 - 2 ^ 32).natAbs < 2 ^ 32 / 1000) := by decide

/-- Claim C3, amended: the 0.1% round-trip tolerance
|fast_rsqrt(x)^2 * x - 2^32| < 2^32/1000 holds for all 1 <= x <= 1132,
the exact range of small inputs preceding the first failure at x = 1133. -/
theorem C3_tolerance_small :
    ∀ x : Nat, x ≤ 1132 → 1 ≤ x →
      ((fast_rsqrt x : Int) ^ 2 * x - 2 ^ 32).natAbs < 2 ^ 32 / 1000 := by decide

theorem C3_tolerance_small_witness :
    (100 : Nat) ≤ 1132 ∧ 1 ≤ (100 : Nat) ∧
    ((fast_rsqrt 100 : Int) ^ 2 * 100 - 2 ^ 32).natAbs < 2 ^ 32 / 1000 :=
  ⟨by norm_num, by norm_num, C3_tolerance_small 100 (by norm_num) (by norm_num)⟩

/-- Claim C4, counterexample: monotonicity fails at x = 65535:
fast_rsqrt 65535 = 255 but fast_rsqrt 65536 = 256. -/
theorem C4_monotone_cex : ¬ (fast_rsqrt (65535 + 1) ≤ fast_rsqrt 65535) := by decide

/-- Claim C4, amended: adjacent-input monotonicity fast_rsqrt(x+1) <=
fast_rsqrt(x) holds on 1 <= x <= 1024, and the global trend across
exponent buckets is non-increasing: fast_rsqrt(2^(e+1)) <= fast_rsqrt(2^e)
for every e <= 30. Full adjacent monotonicity fails first at x = 65535. -/
theorem C4_monotone_trend :
    (∀ x : Nat, x ≤ 1024 → 1 ≤ x → fast_rsqrt (x + 1) ≤ fast_rsqrt x) ∧
    (∀ e : Nat, e ≤ 30 → fast_rsqrt (2 ^ (e + 1)) ≤ fast_rsqrt (2 ^ e)) := by
  constructor
  · decide
  · decide

theorem C4_monotone_trend_witness :
    ((5 : Nat) ≤ 1024 ∧ 1 ≤ (5 : Nat) ∧ fast_rsqrt (5 + 1) ≤ fast_rsqrt 5) ∧
    ((3 : Nat) ≤ 30 ∧ fast_rsqrt (2 ^ (3 + 1)) ≤ fast_rsqrt (2 ^ 3)) :=
  ⟨⟨by norm_num, by norm_num, C4_monotone_trend.1 5 (by norm_num) (by norm_num)⟩,
   ⟨by norm_num, C4_monotone_trend.2 3 (by norm_num)⟩⟩

/-- Claim C5, counterexample: in the top bucket the offset is not below
65536: at x = 2^31 the computed frac is exactly 65536. -/
theorem C5_frac_cex : ¬ (rsqrt_frac 2147483648 < 65536) := by decide

/-- Claim C5, amended: for nonzero x the interpolation offset frac lies
in [0, 65536) whenever the exponent bucket e is below 31; in the top
bucket e = 31 (where base = 0) it instead lies in [65536, 131072). -/
theorem C5_frac_range (x : Nat) (hx : 0 < x) (h32 : x < 2 ^ 32) :
    (rsqrt_exp x < 31 → rsqrt_frac x < 65536) ∧
    (rsqrt_exp x = 31 → 65536 ≤ rsqrt_frac x ∧ rsqrt_frac x < 131072) := by
  constructor
  · intro he
    exact rsqrt_frac_lt x hx h32 he
  · intro he
    have h := rsqrt_exp_spec x hx h32
    exact rsqrt_frac_top x (he ▸ h.2.1) h32

theorem C5_frac_range_witness :
    0 < 2147483648 ∧ (2147483648 : Nat) < 2 ^ 32 ∧
    ((rsqrt_exp 2147483648 < 31 → rsqrt_frac 2147483648 < 65536) ∧
     (rsqrt_exp 2147483648 = 31 →
      65536 ≤ rsqrt_frac 2147483648 ∧ rsqrt_frac 2147483648 < 131072)) :=
  ⟨by norm_num, by norm_num, C5_frac_range 2147483648 (by norm_num) (by norm_num)⟩

/-- Claim C6: if the exact sum of squares of the signed 32-bit inputs
exceeds 0xFFFFFFFF, dist3 does not wrap: it returns exactly the value of
the clamped pipeline, i.e. the reciprocal-sqrt of 0xFFFFFFFF multiplied
by 0xFFFFFFFF and shifted right 16. -/
theorem C6_dist3_saturates (x y z : Int)
    (hx1 : -(2 ^ 31) ≤ x) (hx2 : x < 2 ^ 31)
    (hy1 : -(2 ^ 31) ≤ y) (hy2 : y < 2 ^ 31)
    (hz1 : -(2 ^ 31) ≤ z) (hz2 : z < 2 ^ 31)
    (hsum : 4294967295 < x * x + y * y + z * z) :
    dist3 x y z = ((fast_rsqrt 4294967295 * 4294967295) % 2 ^ 64) >>> 16 % 2 ^ 32 := by
  have hx0 : (0 : Int) ≤ x * x := mul_self_nonneg x
  have hy0 : (0 : Int) ≤ y * y := mul_self_nonneg y
  have hz0 : (0 : Int) ≤ z * z := mul_self_nonneg z
  have hxb : x * x ≤ 4611686018427387904 := by
    nlinarith [mul_nonneg (by linarith : (0 : Int) ≤ x + 2 ^ 31)
      (by linarith : (0 : Int) ≤ 2 ^ 31 - x)]
  have hyb : y * y ≤ 4611686018427387904 := by
    nlinarith [mul_nonneg (by linarith : (0 : Int) ≤ y + 2 ^ 31)
      (by linarith : (0 : Int) ≤ 2 ^ 31 - y)]
  have hzb : z * z ≤ 4611686018427387904 := by
    nlinarith [mul_nonneg (by linarith : (0 : Int) ≤ z + 2 ^ 31)
      (by linarith : (0 : Int) ≤ 2 ^ 31 - z)]
  simp only [dist3, u64_sq x hx1 hx2, u64_sq y hy1 hy2, u64_sq z hz1 hz2]
  have hs : (x * x).toNat + (y * y).toNat + (z * z).toNat < 2 ^ 64 := by omega
  rw [Nat.mod_eq_of_lt hs]
  have hgt : 4294967295 < (x * x).toNat + (y * y).toNat + (z * z).toNat := by omega
  rw [if_pos hgt]
  have hmod : (4294967295 : Nat) % 2 ^ 32 = 4294967295 := by norm_num
  rw [hmod]

theorem C6_dist3_saturates_witness :
    (-(2 ^ 31) : Int) ≤ 65536 ∧ (65536 : Int) < 2 ^ 31 ∧
    (-(2 ^ 31) : Int) ≤ 65536 ∧ (65536 : Int) < 2 ^ 31 ∧
    (-(2 ^ 31) : Int) ≤ 65536 ∧ (65536 : Int) < 2 ^ 31 ∧
    (4294967295 : Int) < 65536 * 65536 + 65536 * 65536 + 65536 * 65536 ∧
    dist3 65536 65536 65536 = ((fast_rsqrt 4294967295 * 4294967295) % 2 ^ 64) >>> 16 % 2 ^ 32 :=
  ⟨by norm_num, by norm_num, by norm_num, by norm_num, by norm_num, by norm_num, by norm_num,
   C6_dist3_saturates 65536 65536 65536 (by norm_num) (by norm_num) (by norm_num) (by norm_num)
     (by norm_num) (by norm_num) (by norm_num)⟩

/-- Claim C7: dist3(0,0,0) returns exactly 0, even though the inner
reciprocal-sqrt call on the zero sum returns the saturated 0xFFFFFFFF. -/
theorem C7_dist3_zero : dist3 0 0 0 = 0 ∧ fast_rsqrt 0 = 4294967295 := by decide

/-- Claim C8: fast_rsqrt(1) returns exactly 65536: the interpolated
estimate at the exponent-0 boundary is exactly 65536 and a Newton step
leaves that exact value unchanged. -/
theorem C8_rsqrt_one :
    fast_rsqrt 1 = 65536 ∧ rsqrt_interp 1 = 65536 ∧ q16_newton_step 65536 1 = 65536 := by decide

/-- Claim C9: dist3(1,2,3) returns 3 or 4, an integer approximation of
sqrt(14). -/
theorem C9_dist3_123 : dist3 1 2 3 = 3 ∨ dist3 1 2 3 = 4 := by decide

/-- Claim C10: every input in the top exponent bucket 2^31 <= x <= 2^32-1
yields fast_rsqrt(x) = 1: the table base entry and the substituted next
entry are both 1, so the interpolation is the constant 1, and both Newton
steps map 1 back to itself. -/
theorem C10_top_bucket (x : Nat) (h1 : 2 ^ 31 ≤ x) (h2 : x < 2 ^ 32) : fast_rsqrt x = 1 :=
  fast_rsqrt_top x h1 h2

theorem C10_top_bucket_witness :
    (2 : Nat) ^ 31 ≤ 3000000000 ∧ (3000000000 : Nat) < 2 ^ 32 ∧ fast_rsqrt 3000000000 = 1 :=
  ⟨by norm_num, by norm_num, C10_top_bucket 3000000000 (by norm_num) (by norm_num)⟩

end FastRsqrt
